import Mathlib

set_option maxRecDepth 8000

/-!
Shallow embedding of the ISO 286 tolerance calculator in `src/app.py`.
Sizes and deviations are modelled as exact rationals (the Python code uses
floats only for divisions by 1000 and 2, which are exact in ℚ); letter codes
are lists of characters, as produced by the regex group `[A-Za-z]+`.
-/

namespace App

/-- The IT grade table `IT_TABLE` of app.py, keyed by the upper bound of the
size bracket; each row lists the IT5..IT13 widths in microns. Keys outside
the table map to `[]` (the Python dict is only ever indexed at its keys). -/
def IT_TABLE (r : Nat) : List Nat :=
  match r with
  | 3 => [4, 6, 10, 14, 25, 40, 60, 100, 140]
  | 6 => [5, 8, 12, 18, 30, 48, 75, 120, 180]
  | 10 => [6, 9, 15, 22, 36, 58, 90, 150, 220]
  | 18 => [8, 11, 18, 27, 43, 70, 110, 180, 270]
  | 30 => [9, 13, 21, 33, 52, 84, 130, 210, 330]
  | 50 => [11, 16, 25, 39, 62, 100, 160, 250, 390]
  | 80 => [13, 19, 30, 46, 74, 120, 190, 300, 460]
  | 120 => [15, 22, 35, 54, 87, 140, 220, 350, 540]
  | 180 => [18, 25, 40, 63, 100, 160, 250, 400, 630]
  | 250 => [20, 29, 46, 72, 115, 185, 290, 460, 720]
  | 315 => [23, 32, 52, 81, 130, 210, 320, 520, 810]
  | 400 => [25, 36, 57, 89, 140, 230, 360, 570, 890]
  | 500 => [27, 40, 63, 97, 155, 250, 400, 630, 970]
  | _ => []

/-- The `ranges` list inside `get_it_value`. -/
def it_ranges : List Nat := [3, 6, 10, 18, 30, 50, 80, 120, 180, 250, 315, 400, 500]

/-- `get_it_value(size, grade)` of app.py: first bracket bound with
`size <= r`, then row lookup at `grade - 5` guarded by `5 <= grade <= 13`.
The guard makes the row index 0..8 always in bounds of the 9-entry rows,
so the direct Python indexing is modelled with `getD`. -/
def get_it_value (size : ℚ) (grade : Int) : Option Nat :=
  match it_ranges.find? (fun r : Nat => decide (size ≤ (r : ℚ))) with
  | none => none
  | some r =>
    if 5 ≤ grade ∧ grade ≤ 13 then some ((IT_TABLE r).getD (grade - 5).toNat 0)
    else none

/-- Result of `get_fundamental_deviation`: either the string "SYMMETRIC"
or an integer number of microns. -/
inductive RawDev where
  | symmetric : RawDev
  | value (dev : Int) : RawDev
deriving DecidableEq

/-- Python `str.isupper()` restricted to the strings that reach it here
(nonempty alphabetic strings from the regex group `[A-Za-z]+`): every
character uppercase and the string nonempty. -/
def py_isupper (l : List Char) : Bool := l.all Char.isUpper && !l.isEmpty

/-- `get_fundamental_deviation(size, letter)` of app.py. `code` is the
lowercased letter string; unmatched codes leave `dev = 0`; holes negate. -/
def get_fundamental_deviation (size : ℚ) (letter : List Char) : RawDev :=
  let is_hole := py_isupper letter
  let code := letter.map Char.toLower
  if code = ['j', 's'] then RawDev.symmetric
  else
    let dev : Int :=
      if code = ['h'] then 0
      else if code = ['g'] then
        if size ≤ 3 then -2 else if size ≤ 6 then -4 else if size ≤ 10 then -5
        else if size ≤ 18 then -6 else if size ≤ 30 then -7
        else if size ≤ 50 then -9 else -10
      else if code = ['f'] then
        if size ≤ 3 then -6 else if size ≤ 6 then -10 else if size ≤ 10 then -13
        else if size ≤ 18 then -16 else if size ≤ 30 then -20 else -25
      else if code = ['e'] then
        if size ≤ 3 then -14 else if size ≤ 6 then -20 else if size ≤ 10 then -25
        else if size ≤ 18 then -32 else if size ≤ 30 then -40 else -50
      else if code = ['m'] then
        if size ≤ 3 then 2 else if size ≤ 6 then 4 else if size ≤ 10 then 6
        else if size ≤ 18 then 7 else if size ≤ 30 then 8 else 9
      else if code = ['n'] then
        if size ≤ 3 then 4 else if size ≤ 6 then 8 else if size ≤ 10 then 10
        else if size ≤ 18 then 12 else if size ≤ 30 then 15 else 17
      else if code = ['p'] then
        if size ≤ 3 then 6 else if size ≤ 6 then 12 else if size ≤ 10 then 15
        else if size ≤ 18 then 18 else if size ≤ 30 then 22 else 26
      else 0
    if is_hole then
      if code = ['h'] then RawDev.value 0 else RawDev.value (-dev)
    else RawDev.value dev

/-- The record of numbers assembled for a successful query (lines 194-196
and the displayed fields of app.py). Deviations and limits are in mm. -/
structure ToleranceResult where
  itWidthMicrons : Nat
  upperDeviation : ℚ
  lowerDeviation : ℚ
  maxLimit : ℚ
  minLimit : ℚ
deriving DecidableEq

/-- The branch structure of lines 152-192 of app.py: from the letter string,
the raw fundamental deviation and the IT width in mm, produce
`(upper_dev, lower_dev)`. -/
def composeDeviations (letter : List Char) (raw : RawDev) (it_mm : ℚ) : ℚ × ℚ :=
  match raw with
  | RawDev.symmetric => (it_mm / 2, -(it_mm / 2))
  | RawDev.value d =>
    let f : ℚ := (d : ℚ) / 1000
    if py_isupper letter then
      if letter = ['H'] then (it_mm, 0)
      else if letter = ['P'] then (f, f - it_mm)
      else (f + it_mm, f)
    else
      if letter.map Char.toLower ∈ ([['k'], ['m'], ['n'], ['p']] : List (List Char)) then
        (f + it_mm, f)
      else (f, f - it_mm)

/-- The table-mode engine of app.py (lines 137-196): IT lookup, fundamental
deviation, deviation composition, and the limiting dimensions
`max_size = nominal + upper_dev`, `min_size = nominal + lower_dev`.
`none` models the error branch (line 140). -/
def computeTolerance (nominal : ℚ) (letter : List Char) (grade : Int) :
    Option ToleranceResult :=
  match get_it_value nominal grade with
  | none => none
  | some it_microns =>
    let it_mm : ℚ := (it_microns : ℚ) / 1000
    let ud := composeDeviations letter (get_fundamental_deviation nominal letter) it_mm
    some { itWidthMicrons := it_microns
           upperDeviation := ud.1
           lowerDeviation := ud.2
           maxLimit := nominal + ud.1
           minLimit := nominal + ud.2 }

/-- Fit classes of the Limit and Fit Classifier. -/
inductive FitClass where
  | Clearance : FitClass
  | Transition : FitClass
  | Interference : FitClass
deriving DecidableEq

/-- Modelled from the spec: the Limit and Fit Classifier of section 4.5 is
absent from src/app.py (only result assembly and display are present there).
Per the spec: both deviations positive gives Clearance, both negative gives
Interference, mixed sign gives Transition, and a deviation exactly 0 counts
as non-negative. -/
def classifyFit (upper lower : ℚ) : FitClass :=
  if 0 ≤ upper ∧ 0 ≤ lower then FitClass.Clearance
  else if upper < 0 ∧ lower < 0 then FitClass.Interference
  else FitClass.Transition

/-- In every branch of the compositor the band width `upper - lower` is
exactly the IT width handed in. -/
lemma composeDeviations_spread (letter : List Char) (raw : RawDev) (it_mm : ℚ) :
    (composeDeviations letter raw it_mm).1 - (composeDeviations letter raw it_mm).2 = it_mm := by
  cases raw with
  | symmetric => simp only [composeDeviations]; ring
  | value d => simp only [composeDeviations]; split_ifs <;> simp

/-- Inversion for a successful query: the IT lookup succeeded and the result
record is exactly the one assembled from the compositor output. -/
lemma computeTolerance_eq_some {nominal : ℚ} {letter : List Char} {grade : Int}
    {res : ToleranceResult} (h : computeTolerance nominal letter grade = some res) :
    ∃ it, get_it_value nominal grade = some it ∧
      res = { itWidthMicrons := it
              upperDeviation :=
                (composeDeviations letter (get_fundamental_deviation nominal letter)
                  ((it : ℚ) / 1000)).1
              lowerDeviation :=
                (composeDeviations letter (get_fundamental_deviation nominal letter)
                  ((it : ℚ) / 1000)).2
              maxLimit :=
                nominal + (composeDeviations letter (get_fundamental_deviation nominal letter)
                  ((it : ℚ) / 1000)).1
              minLimit :=
                nominal + (composeDeviations letter (get_fundamental_deviation nominal letter)
                  ((it : ℚ) / 1000)).2 } := by
  unfold computeTolerance at h
  cases hit : get_it_value nominal grade with
  | none => rw [hit] at h; cases h
  | some it =>
    rw [hit] at h
    simp only [Option.some.injEq] at h
    exact ⟨it, rfl, h.symm⟩

/-- Every successful result satisfies the width and limit equations. -/
lemma band_of_some {nominal : ℚ} {letter : List Char} {grade : Int}
    {res : ToleranceResult} (h : computeTolerance nominal letter grade = some res) :
    res.upperDeviation - res.lowerDeviation = (res.itWidthMicrons : ℚ) / 1000 ∧
    res.maxLimit = nominal + res.upperDeviation ∧
    res.minLimit = nominal + res.lowerDeviation := by
  obtain ⟨it, _, rfl⟩ := computeTolerance_eq_some h
  exact ⟨composeDeviations_spread _ _ _, rfl, rfl⟩

/-- Every successful result has a non-negative band: lower ≤ upper. -/
lemma lower_le_upper_of_some {nominal : ℚ} {letter : List Char} {grade : Int}
    {res : ToleranceResult} (h : computeTolerance nominal letter grade = some res) :
    res.lowerDeviation ≤ res.upperDeviation := by
  have hb := (band_of_some h).1
  have hpos : (0 : ℚ) ≤ (res.itWidthMicrons : ℚ) / 1000 := by positivity
  linarith

/-- Claim C1: in Table mode, `computeTolerance(50, "H", 7)` returns
itWidth = 25 microns, lowerDeviation = 0 mm, upperDeviation = 0.025 mm,
maxLimit = 50.025 mm, minLimit = 50.000 mm, and the fit is classified
as Clearance. -/
theorem C1_table_H7_at_50 :
    computeTolerance 50 ['H'] 7 =
      some { itWidthMicrons := 25, upperDeviation := 25 / 1000, lowerDeviation := 0,
             maxLimit := 50 + 25 / 1000, minLimit := 50 } ∧
    classifyFit (25 / 1000) 0 = FitClass.Clearance := by
  constructor
  · simp only [computeTolerance,
      show get_it_value 50 7 = some 25 from by decide,
      show get_fundamental_deviation 50 ['H'] = RawDev.value 0 from by decide]
    simp +decide only [composeDeviations, py_isupper]
    norm_num
  · norm_num [classifyFit]

/-- Claim C4: every successful query satisfies
`upperDeviation - lowerDeviation = itWidth` (exactly, in exact arithmetic),
hence `lowerDeviation ≤ upperDeviation`, and
`maxLimit = nominal + upperDeviation`, `minLimit = nominal + lowerDeviation`. -/
theorem C4_band_invariants (nominal : ℚ) (letter : List Char) (grade : Int)
    (res : ToleranceResult) (h : computeTolerance nominal letter grade = some res) :
    res.upperDeviation - res.lowerDeviation = (res.itWidthMicrons : ℚ) / 1000 ∧
    res.lowerDeviation ≤ res.upperDeviation ∧
    res.maxLimit = nominal + res.upperDeviation ∧
    res.minLimit = nominal + res.lowerDeviation :=
  ⟨(band_of_some h).1, lower_le_upper_of_some h, (band_of_some h).2.1, (band_of_some h).2.2⟩

/-- Witness for C4 at the concrete query `computeTolerance(50, "H", 7)`. -/
theorem C4_band_invariants_witness :
    (25 / 1000 : ℚ) - 0 = ((25 : Nat) : ℚ) / 1000 ∧
    (0 : ℚ) ≤ 25 / 1000 ∧
    (50 + 25 / 1000 : ℚ) = 50 + 25 / 1000 ∧
    (50 : ℚ) = 50 + 0 :=
  C4_band_invariants 50 ['H'] 7
    { itWidthMicrons := 25, upperDeviation := 25 / 1000, lowerDeviation := 0,
      maxLimit := 50 + 25 / 1000, minLimit := 50 }
    (by
      simp only [computeTolerance,
        show get_it_value 50 7 = some 25 from by decide,
        show get_fundamental_deviation 50 ['H'] = RawDev.value 0 from by decide]
      simp +decide only [composeDeviations, py_isupper]
      norm_num)

/-- Claim C3: for every successful query, the fit classification (modelled
from the spec, section 4.5, since the classifier is absent from src/app.py)
is determined by the signs of the two deviations: both non-negative gives
Clearance, both negative gives Interference, and a band straddling zero
(lower negative, upper non-negative) gives Transition; a deviation exactly 0
counts as non-negative. -/
theorem C3_fit_classification (nominal : ℚ) (letter : List Char) (grade : Int)
    (res : ToleranceResult) (h : computeTolerance nominal letter grade = some res) :
    (classifyFit res.upperDeviation res.lowerDeviation = FitClass.Clearance ↔
      0 ≤ res.upperDeviation ∧ 0 ≤ res.lowerDeviation) ∧
    (classifyFit res.upperDeviation res.lowerDeviation = FitClass.Interference ↔
      res.upperDeviation < 0 ∧ res.lowerDeviation < 0) ∧
    (classifyFit res.upperDeviation res.lowerDeviation = FitClass.Transition ↔
      res.lowerDeviation < 0 ∧ 0 ≤ res.upperDeviation) := by
  have hle : res.lowerDeviation ≤ res.upperDeviation := lower_le_upper_of_some h
  unfold classifyFit
  split_ifs with h1 h2
  · exact ⟨iff_of_true rfl h1,
      iff_of_false (by decide) (fun hc => absurd h1.1 (not_le.mpr hc.1)),
      iff_of_false (by decide) (fun hc => absurd h1.2 (not_le.mpr hc.1))⟩
  · exact ⟨iff_of_false (by decide) (fun hc => absurd hc.1 (not_le.mpr h2.1)),
      iff_of_true rfl h2,
      iff_of_false (by decide) (fun hc => absurd hc.2 (not_le.mpr h2.1))⟩
  · have hlo : res.lowerDeviation < 0 := by
      by_contra hc
      push_neg at hc
      exact h1 ⟨le_trans hc hle, hc⟩
    have hup : 0 ≤ res.upperDeviation := by
      by_contra hc
      push_neg at hc
      exact h2 ⟨hc, lt_of_le_of_lt hle hc⟩
    exact ⟨iff_of_false (by decide) h1, iff_of_false (by decide) h2,
      iff_of_true rfl ⟨hlo, hup⟩⟩

/-- Witness for C3 at the concrete query `computeTolerance(50, "g", 6)`. -/
theorem C3_fit_classification_witness :
    (classifyFit (-(9 / 1000)) (-(25 / 1000)) = FitClass.Clearance ↔
      0 ≤ (-(9 / 1000) : ℚ) ∧ 0 ≤ (-(25 / 1000) : ℚ)) ∧
    (classifyFit (-(9 / 1000)) (-(25 / 1000)) = FitClass.Interference ↔
      (-(9 / 1000) : ℚ) < 0 ∧ (-(25 / 1000) : ℚ) < 0) ∧
    (classifyFit (-(9 / 1000)) (-(25 / 1000)) = FitClass.Transition ↔
      (-(25 / 1000) : ℚ) < 0 ∧ 0 ≤ (-(9 / 1000) : ℚ)) :=
  C3_fit_classification 50 ['g'] 6
    { itWidthMicrons := 16, upperDeviation := -(9 / 1000), lowerDeviation := -(25 / 1000),
      maxLimit := 50 - 9 / 1000, minLimit := 50 - 25 / 1000 }
    (by
      simp only [computeTolerance,
        show get_it_value 50 6 = some 16 from by decide,
        show get_fundamental_deviation 50 ['g'] = RawDev.value (-9) from by decide]
      simp +decide only [composeDeviations, py_isupper]
      norm_num)

/-- Claim C5: any letter whose lowercase form is `js` yields the symmetric
band `upperDeviation = +IT/2`, `lowerDeviation = -IT/2`, so
`upperDeviation = -lowerDeviation`; and in Table mode
`computeTolerance(25, "JS", 9)` gives itWidth = 52 microns,
upperDeviation = +0.026 mm, lowerDeviation = -0.026 mm. -/
theorem C5_js_symmetric :
    (∀ (nominal : ℚ) (grade : Int) (letter : List Char) (res : ToleranceResult),
      letter.map Char.toLower = ['j', 's'] →
      computeTolerance nominal letter grade = some res →
      res.upperDeviation = (res.itWidthMicrons : ℚ) / 1000 / 2 ∧
      res.lowerDeviation = -((res.itWidthMicrons : ℚ) / 1000 / 2) ∧
      res.upperDeviation = -res.lowerDeviation) ∧
    computeTolerance 25 ['J', 'S'] 9 =
      some { itWidthMicrons := 52, upperDeviation := 26 / 1000,
             lowerDeviation := -(26 / 1000),
             maxLimit := 25 + 26 / 1000, minLimit := 25 - 26 / 1000 } := by
  constructor
  · intro nominal grade letter res hjs h
    obtain ⟨it, hit, rfl⟩ := computeTolerance_eq_some h
    have hsym : get_fundamental_deviation nominal letter = RawDev.symmetric := by
      simp [get_fundamental_deviation, hjs]
    simp only [hsym, composeDeviations]
    norm_num
  · simp only [computeTolerance,
      show get_it_value 25 9 = some 52 from by decide,
      show get_fundamental_deviation 25 ['J', 'S'] = RawDev.symmetric from by decide]
    simp +decide only [composeDeviations, py_isupper]
    norm_num

/-- Witness for the universal part of C5, at `computeTolerance(3, "js", 9)`. -/
theorem C5_js_symmetric_witness :
    (1 / 80 : ℚ) = ((25 : Nat) : ℚ) / 1000 / 2 ∧
    (-(1 / 80) : ℚ) = -(((25 : Nat) : ℚ) / 1000 / 2) ∧
    (1 / 80 : ℚ) = -(-(1 / 80) : ℚ) :=
  C5_js_symmetric.1 3 9 ['j', 's']
    { itWidthMicrons := 25, upperDeviation := 1 / 80, lowerDeviation := -(1 / 80),
      maxLimit := 3 + 1 / 80, minLimit := 3 - 1 / 80 }
    (by decide)
    (by
      simp only [computeTolerance,
        show get_it_value 3 9 = some 25 from by decide,
        show get_fundamental_deviation 3 ['j', 's'] = RawDev.symmetric from by decide]
      simp +decide only [composeDeviations, py_isupper]
      norm_num)

/-- Claim C6: the lower-anchored shaft letters g, f, e are composed as
`es = fundDev`, `ei = es - IT`; and in Table mode `computeTolerance(50, "g", 6)`
gives itWidth = 16 microns, upperDeviation = -0.009 mm,
lowerDeviation = -0.025 mm. -/
theorem C6_lower_anchored_shafts :
    (∀ (nominal : ℚ) (grade : Int) (letter : List Char) (d : Int) (res : ToleranceResult),
      letter ∈ ([['g'], ['f'], ['e']] : List (List Char)) →
      get_fundamental_deviation nominal letter = RawDev.value d →
      computeTolerance nominal letter grade = some res →
      res.upperDeviation = (d : ℚ) / 1000 ∧
      res.lowerDeviation = res.upperDeviation - (res.itWidthMicrons : ℚ) / 1000) ∧
    computeTolerance 50 ['g'] 6 =
      some { itWidthMicrons := 16, upperDeviation := -(9 / 1000),
             lowerDeviation := -(25 / 1000),
             maxLimit := 50 - 9 / 1000, minLimit := 50 - 25 / 1000 } := by
  constructor
  · intro nominal grade letter d res hmem hdev h
    obtain ⟨it, hit, rfl⟩ := computeTolerance_eq_some h
    simp only [List.mem_cons, List.not_mem_nil, or_false] at hmem
    rcases hmem with rfl | rfl | rfl <;>
      simp only [hdev, composeDeviations] <;>
      simp +decide only [py_isupper] <;>
      norm_num
  · simp only [computeTolerance,
      show get_it_value 50 6 = some 16 from by decide,
      show get_fundamental_deviation 50 ['g'] = RawDev.value (-9) from by decide]
    simp +decide only [composeDeviations, py_isupper]
    norm_num

/-- Witness for the universal part of C6, at `computeTolerance(30, "f", 7)`. -/
theorem C6_lower_anchored_shafts_witness :
    (-(20 / 1000) : ℚ) = ((-20 : Int) : ℚ) / 1000 ∧
    (-(41 / 1000) : ℚ) = (-(20 / 1000) : ℚ) - ((21 : Nat) : ℚ) / 1000 :=
  C6_lower_anchored_shafts.1 30 7 ['f'] (-20)
    { itWidthMicrons := 21, upperDeviation := -(20 / 1000),
      lowerDeviation := -(41 / 1000),
      maxLimit := 30 - 20 / 1000, minLimit := 30 - 41 / 1000 }
    (by decide)
    (by decide)
    (by
      simp only [computeTolerance,
        show get_it_value 30 7 = some 21 from by decide,
        show get_fundamental_deviation 30 ['f'] = RawDev.value (-20) from by decide]
      simp +decide only [composeDeviations, py_isupper]
      norm_num)

/-- Counterexample to claim C2: for the hole letter N at size 50, grade 7,
the fundamental deviation is -17 microns, but the code anchors the band at
the LOWER deviation (EI = fundDev, ES = EI + IT), so the upper deviation is
+0.008 mm, not the fundamental deviation -0.017 mm that an ES anchoring
would give. -/
theorem C2_counterexample_hole_N :
    get_fundamental_deviation 50 ['N'] = RawDev.value (-17) ∧
    computeTolerance 50 ['N'] 7 =
      some { itWidthMicrons := 25, upperDeviation := 8 / 1000,
             lowerDeviation := -(17 / 1000),
             maxLimit := 50 + 8 / 1000, minLimit := 50 - 17 / 1000 } ∧
    (8 / 1000 : ℚ) ≠ ((-17 : Int) : ℚ) / 1000 := by
  refine ⟨by decide, ?_, by norm_num⟩
  simp only [computeTolerance,
    show get_it_value 50 7 = some 25 from by decide,
    show get_fundamental_deviation 50 ['N'] = RawDev.value (-17) from by decide]
  simp +decide only [composeDeviations, py_isupper]
  norm_num

/-- Claim C2 as amended: the shaft letters k, m, n, p are anchored at the
bottom (ei = fundDev, es = ei + IT); among the hole letters only P is
anchored at the top (ES = fundDev, EI = ES - IT); the hole letters K and N
instead use the generic hole rule EI = fundDev, ES = EI + IT. -/
theorem C2_amended_anchoring :
    (∀ (nominal : ℚ) (grade : Int) (letter : List Char) (d : Int) (res : ToleranceResult),
      letter ∈ ([['k'], ['m'], ['n'], ['p']] : List (List Char)) →
      get_fundamental_deviation nominal letter = RawDev.value d →
      computeTolerance nominal letter grade = some res →
      res.lowerDeviation = (d : ℚ) / 1000 ∧
      res.upperDeviation = res.lowerDeviation + (res.itWidthMicrons : ℚ) / 1000) ∧
    (∀ (nominal : ℚ) (grade : Int) (d : Int) (res : ToleranceResult),
      get_fundamental_deviation nominal ['P'] = RawDev.value d →
      computeTolerance nominal ['P'] grade = some res →
      res.upperDeviation = (d : ℚ) / 1000 ∧
      res.lowerDeviation = res.upperDeviation - (res.itWidthMicrons : ℚ) / 1000) ∧
    (∀ (nominal : ℚ) (grade : Int) (letter : List Char) (d : Int) (res : ToleranceResult),
      (letter = ['K'] ∨ letter = ['N']) →
      get_fundamental_deviation nominal letter = RawDev.value d →
      computeTolerance nominal letter grade = some res →
      res.lowerDeviation = (d : ℚ) / 1000 ∧
      res.upperDeviation = res.lowerDeviation + (res.itWidthMicrons : ℚ) / 1000) := by
  refine ⟨?_, ?_, ?_⟩
  · intro nominal grade letter d res hmem hdev h
    obtain ⟨it, hit, rfl⟩ := computeTolerance_eq_some h
    simp only [List.mem_cons, List.not_mem_nil, or_false] at hmem
    rcases hmem with rfl | rfl | rfl | rfl <;>
      simp only [hdev, composeDeviations] <;>
      simp +decide only [py_isupper] <;>
      norm_num
  · intro nominal grade d res hdev h
    obtain ⟨it, hit, rfl⟩ := computeTolerance_eq_some h
    simp only [hdev, composeDeviations]
    simp +decide only [py_isupper]
    norm_num
  · intro nominal grade letter d res hmem hdev h
    obtain ⟨it, hit, rfl⟩ := computeTolerance_eq_some h
    rcases hmem with rfl | rfl <;>
      simp only [hdev, composeDeviations] <;>
      simp +decide only [py_isupper] <;>
      norm_num

/-- Witness for the amended C2, at `computeTolerance(10, "p", 7)`. -/
theorem C2_amended_anchoring_witness :
    (15 / 1000 : ℚ) = ((15 : Int) : ℚ) / 1000 ∧
    (30 / 1000 : ℚ) = (15 / 1000 : ℚ) + ((15 : Nat) : ℚ) / 1000 :=
  C2_amended_anchoring.1 10 7 ['p'] 15
    { itWidthMicrons := 15, upperDeviation := 30 / 1000, lowerDeviation := 15 / 1000,
      maxLimit := 10 + 30 / 1000, minLimit := 10 + 15 / 1000 }
    (by decide)
    (by decide)
    (by
      simp only [computeTolerance,
        show get_it_value 10 7 = some 15 from by decide,
        show get_fundamental_deviation 10 ['p'] = RawDev.value 15 from by decide]
      simp +decide only [composeDeviations, py_isupper]
      norm_num)

/-- The bracket search of `get_it_value` fails exactly on sizes above the
last bracket bound 500; any size at most 500 (including 0 and below) finds
a bracket. -/
lemma find_range_eq_none_iff (size : ℚ) :
    it_ranges.find? (fun r : Nat => decide (size ≤ (r : ℚ))) = none ↔ 500 < size := by
  rw [List.find?_eq_none]
  constructor
  · intro h
    have h500 := h 500 (by simp [it_ranges])
    simp only [decide_eq_true_eq] at h500
    exact lt_of_not_le (by exact_mod_cast h500)
  · intro h x hx
    simp only [it_ranges, List.mem_cons, List.not_mem_nil, or_false] at hx
    have hx500 : (x : ℚ) ≤ 500 := by
      rcases hx with rfl | rfl | rfl | rfl | rfl | rfl | rfl | rfl | rfl | rfl | rfl | rfl | rfl <;>
        norm_num
    simp only [decide_eq_true_eq]
    exact not_le.mpr (lt_of_le_of_lt hx500 h)

/-- Counterexample to claim C7: size 0 is outside the interval (0, 500],
yet the table lookup succeeds there (the lower bound is never checked),
returning the first bracket's IT7 value of 10 microns. -/
theorem C7_counterexample_zero_size :
    get_it_value 0 7 = some 10 ∧ ¬(0 < (0 : ℚ) ∧ (0 : ℚ) ≤ 500) := by
  exact ⟨by decide, by norm_num⟩

/-- Claim C7 as amended: in Table mode the lookup fails exactly when the
size exceeds 500 or the grade is outside IT5 to IT13; the lower size bound
is not enforced, and every size at most 500 with grade 5 to 13 succeeds. -/
theorem C7_amended_failure_condition (size : ℚ) (grade : Int) :
    get_it_value size grade = none ↔ (500 < size ∨ grade < 5 ∨ 13 < grade) := by
  unfold get_it_value
  cases hf : it_ranges.find? (fun r : Nat => decide (size ≤ (r : ℚ))) with
  | none =>
    have hs : 500 < size := (find_range_eq_none_iff size).mp hf
    simp [hs]
  | some r =>
    have hs : ¬500 < size := by
      intro hlt
      rw [(find_range_eq_none_iff size).mpr hlt] at hf
      cases hf
    split_ifs with hg
    · simp only [hs, false_or]
      constructor
      · intro hc; cases hc
      · intro hc; omega
    · simp only [hs, false_or]
      constructor
      · intro _; omega
      · intro _; trivial

/-- Witness for the amended C7: size 501 exceeds the table and fails. -/
theorem C7_amended_failure_condition_witness : get_it_value 501 7 = none :=
  (C7_amended_failure_condition 501 7).mpr (Or.inl (by norm_num))

/-- Any letter whose lowercase form is none of js, g, f, e, m, n, p falls
through `get_fundamental_deviation` with the default deviation 0 (this
covers h/H and k/K as well as every letter outside the supported set). -/
lemma fund_dev_default (size : ℚ) (letter : List Char)
    (h : letter.map Char.toLower ∉
      ([['j', 's'], ['g'], ['f'], ['e'], ['m'], ['n'], ['p']] : List (List Char))) :
    get_fundamental_deviation size letter = RawDev.value 0 := by
  simp only [List.mem_cons, List.not_mem_nil, or_false, not_or] at h
  obtain ⟨hjs, hg, hf, he, hm, hn, hp⟩ := h
  unfold get_fundamental_deviation
  simp only [hjs, hg, hf, he, hm, hn, hp, if_false, ite_self]
  split_ifs <;> simp

/-- Counterexample to claim C9: the letter b is outside the supported set,
yet no error is raised: the engine returns a complete h-shaped result. -/
theorem C9_counterexample_letter_b :
    computeTolerance 50 ['b'] 7 =
      some { itWidthMicrons := 25, upperDeviation := 0,
             lowerDeviation := -(25 / 1000),
             maxLimit := 50, minLimit := 50 - 25 / 1000 } := by
  simp only [computeTolerance,
    show get_it_value 50 7 = some 25 from by decide,
    show get_fundamental_deviation 50 ['b'] = RawDev.value 0 from by decide]
  simp +decide only [composeDeviations, py_isupper]
  norm_num

/-- Claim C9 as amended: there is no unsupported-letter error; a letter
outside the supported set gets fundamental deviation 0, and whenever the
size/grade lookup succeeds the engine returns a full result. -/
theorem C9_amended_no_letter_error (nominal : ℚ) (grade : Int) (letter : List Char)
    (it : Nat)
    (hletter : letter.map Char.toLower ∉
      ([['j', 's'], ['h'], ['g'], ['f'], ['e'], ['k'], ['m'], ['n'], ['p']] :
        List (List Char)))
    (hit : get_it_value nominal grade = some it) :
    get_fundamental_deviation nominal letter = RawDev.value 0 ∧
    computeTolerance nominal letter grade ≠ none := by
  have h7 : letter.map Char.toLower ∉
      ([['j', 's'], ['g'], ['f'], ['e'], ['m'], ['n'], ['p']] : List (List Char)) := by
    simp only [List.mem_cons, List.not_mem_nil, or_false, not_or] at hletter ⊢
    tauto
  refine ⟨fund_dev_default nominal letter h7, ?_⟩
  unfold computeTolerance
  rw [hit]
  simp

/-- Witness for the amended C9 at the query `computeTolerance(50, "b", 7)`. -/
theorem C9_amended_no_letter_error_witness :
    get_fundamental_deviation 50 ['b'] = RawDev.value 0 ∧
    computeTolerance 50 ['b'] 7 ≠ none :=
  C9_amended_no_letter_error 50 7 ['b'] 25 (by decide) (by decide)

/-- Claim C10: for every letter whose lowercase form is neither js nor one
of g, f, e, m, n, p, `get_fundamental_deviation` returns exactly 0, and a
successful query yields a zero-anchored band of full IT width: the H-shaped
band (lower = 0, upper = IT) when the code is all-uppercase or its lowercase
form is in {k, m, n, p}, and the h-shaped band (upper = 0, lower = -IT)
otherwise. -/
theorem C10_default_zero_band (nominal : ℚ) (grade : Int) (letter : List Char)
    (res : ToleranceResult)
    (hletter : letter.map Char.toLower ∉
      ([['j', 's'], ['g'], ['f'], ['e'], ['m'], ['n'], ['p']] : List (List Char)))
    (h : computeTolerance nominal letter grade = some res) :
    get_fundamental_deviation nominal letter = RawDev.value 0 ∧
    ((py_isupper letter = true ∨
        letter.map Char.toLower ∈ ([['k'], ['m'], ['n'], ['p']] : List (List Char))) →
      res.lowerDeviation = 0 ∧ res.upperDeviation = (res.itWidthMicrons : ℚ) / 1000) ∧
    (¬(py_isupper letter = true ∨
        letter.map Char.toLower ∈ ([['k'], ['m'], ['n'], ['p']] : List (List Char))) →
      res.upperDeviation = 0 ∧ res.lowerDeviation = -((res.itWidthMicrons : ℚ) / 1000)) := by
  have hdev := fund_dev_default nominal letter hletter
  obtain ⟨it, hit, rfl⟩ := computeTolerance_eq_some h
  refine ⟨hdev, ?_, ?_⟩
  · intro hcase
    simp only [hdev, composeDeviations]
    by_cases hu : py_isupper letter = true
    · simp only [hu, if_true]
      by_cases hH : letter = ['H']
      · simp [hH]
      · by_cases hP : letter = ['P']
        · exfalso
          apply hletter
          subst hP
          decide
        · simp [hH, hP]
    · rcases hcase with hcase | hmem
      · exact absurd hcase hu
      · simp [hu, hmem]
  · intro hcase
    push_neg at hcase
    simp only [hdev, composeDeviations]
    simp [hcase.1, hcase.2]

/-- Witness for C10 at the query `computeTolerance(50, "Z", 7)`. -/
theorem C10_default_zero_band_witness :
    get_fundamental_deviation 50 ['Z'] = RawDev.value 0 ∧
    ((py_isupper ['Z'] = true ∨
        ['Z'].map Char.toLower ∈ ([['k'], ['m'], ['n'], ['p']] : List (List Char))) →
      (0 : ℚ) = 0 ∧ (25 / 1000 : ℚ) = ((25 : Nat) : ℚ) / 1000) ∧
    (¬(py_isupper ['Z'] = true ∨
        ['Z'].map Char.toLower ∈ ([['k'], ['m'], ['n'], ['p']] : List (List Char))) →
      (25 / 1000 : ℚ) = 0 ∧ (0 : ℚ) = -(((25 : Nat) : ℚ) / 1000)) :=
  C10_default_zero_band 50 7 ['Z']
    { itWidthMicrons := 25, upperDeviation := 25 / 1000, lowerDeviation := 0,
      maxLimit := 50 + 25 / 1000, minLimit := 50 }
    (by decide)
    (by
      simp only [computeTolerance,
        show get_it_value 50 7 = some 25 from by decide,
        show get_fundamental_deviation 50 ['Z'] = RawDev.value 0 from by decide]
      simp +decide only [composeDeviations, py_isupper]
      norm_num)

/-- The regex class `\s` of the parse pattern, for ASCII input. -/
def py_isspace (c : Char) : Bool :=
  c = ' ' || c = '\t' || c = '\n' || c = '\r' || c = '\x0b' || c = '\x0c'

/-- Removal of trailing whitespace (the right half of Python `str.strip()`). -/
def rstrip (l : List Char) : List Char :=
  (l.reverse.dropWhile py_isspace).reverse

/-- Python `str.strip()`: remove leading and trailing whitespace. -/
def pyStrip (l : List Char) : List Char :=
  rstrip (l.dropWhile py_isspace)

/-- Value of a digit string, as Python `int()` computes it. -/
def natOfDigits (l : List Char) : Nat :=
  l.foldl (fun a c => a * 10 + (c.toNat - 48)) 0

/-- Exact value of the decimal literal `<digits>.<digits>`; models Python
`float()` on the matched number, without binary rounding. -/
def ratOfDecimal (ip fp : List Char) : ℚ :=
  (natOfDigits ip : ℚ) + (natOfDigits fp : ℚ) / (10 : ℚ) ^ fp.length

/-- The optional fractional part `(?:\.\d+)?` of the number group: if the
remainder starts with a dot followed by at least one digit, return the
fraction digits and the rest; otherwise consume nothing. -/
def fracSplit (r1 : List Char) : List Char × List Char :=
  if r1.head? = some '.' then
    let fd := (r1.drop 1).takeWhile Char.isDigit
    if fd.isEmpty then ([], r1) else (fd, (r1.drop 1).dropWhile Char.isDigit)
  else ([], r1)

/-- The parse of lines 128-134 of app.py:
`re.match(r"(\d+(?:\.\d+)?)\s*([A-Za-z]+)\s*(\d+)", user_input.strip())`
followed by `float`/`int` conversion of the three groups. `re.match` anchors
only at the start of the string, so trailing characters are ignored. The
character classes of consecutive tokens are disjoint, so the backtracking
regex agrees with this deterministic scan. -/
def parseDesignation (input : List Char) : Option (ℚ × List Char × Nat) :=
  let s := pyStrip input
  let d1 := s.takeWhile Char.isDigit
  let r1 := s.dropWhile Char.isDigit
  if d1.isEmpty then none
  else
    let frac := (fracSplit r1).1
    let r2 := (fracSplit r1).2
    let r3 := r2.dropWhile py_isspace
    let ls := r3.takeWhile Char.isAlpha
    let r4 := r3.dropWhile Char.isAlpha
    if ls.isEmpty then none
    else
      let r5 := r4.dropWhile py_isspace
      let d2 := r5.takeWhile Char.isDigit
      if d2.isEmpty then none
      else some (ratOfDecimal d1 frac, ls, natOfDigits d2)

/-- Modelled from the spec: the literal shape `<number><letters><integer>`
of section 6 (number = digits with an optional decimal part) with nothing
before or after it — what "accepts exactly" would require. Used to compare
the spec's wording with the code's prefix-matching parse. -/
def specShape (s : List Char) : Bool :=
  let d1 := s.takeWhile Char.isDigit
  let r1 := s.dropWhile Char.isDigit
  if d1.isEmpty then false
  else
    let r2 := (fracSplit r1).2
    let ls := r2.takeWhile Char.isAlpha
    let r4 := r2.dropWhile Char.isAlpha
    if ls.isEmpty then false
    else
      let d2 := r4.takeWhile Char.isDigit
      let r6 := r4.dropWhile Char.isDigit
      !d2.isEmpty && r6.isEmpty

/-- Helper for evaluating UInt32 numerals inside character predicates. -/
lemma char_val_lits :
    ((48 : UInt32).toBitVec.toNat = 48) ∧ ((57 : UInt32).toBitVec.toNat = 57) ∧
    ((65 : UInt32).toBitVec.toNat = 65) ∧ ((90 : UInt32).toBitVec.toNat = 90) ∧
    ((97 : UInt32).toBitVec.toNat = 97) ∧ ((122 : UInt32).toBitVec.toNat = 122) :=
  ⟨rfl, rfl, rfl, rfl, rfl, rfl⟩

lemma isDigit_not_space (c : Char) (h : c.isDigit = true) : py_isspace c = false := by
  simp only [Char.isDigit, Bool.and_eq_true, decide_eq_true_eq,
    UInt32.le_def, BitVec.le_def, char_val_lits.1, char_val_lits.2.1] at h
  simp only [py_isspace, Bool.or_eq_false_iff, decide_eq_false_iff_not, Char.ext_iff]
  refine ⟨⟨⟨⟨⟨?_, ?_⟩, ?_⟩, ?_⟩, ?_⟩, ?_⟩ <;>
    · intro hc
      rw [hc] at h
      revert h
      decide

lemma isAlpha_not_space (c : Char) (h : c.isAlpha = true) : py_isspace c = false := by
  simp only [Char.isAlpha, Char.isUpper, Char.isLower, Bool.or_eq_true, Bool.and_eq_true,
    decide_eq_true_eq, UInt32.le_def, BitVec.le_def, char_val_lits.2.2.1,
    char_val_lits.2.2.2.1, char_val_lits.2.2.2.2.1, char_val_lits.2.2.2.2.2] at h
  simp only [py_isspace, Bool.or_eq_false_iff, decide_eq_false_iff_not, Char.ext_iff]
  refine ⟨⟨⟨⟨⟨?_, ?_⟩, ?_⟩, ?_⟩, ?_⟩, ?_⟩ <;>
    · intro hc
      rw [hc] at h
      revert h
      decide

lemma isAlpha_not_digit (c : Char) (h : c.isAlpha = true) : c.isDigit = false := by
  simp only [Char.isDigit, Char.isAlpha, Char.isUpper, Char.isLower, Bool.or_eq_true,
    Bool.and_eq_true, decide_eq_true_eq, Bool.and_eq_false_iff, decide_eq_false_iff_not,
    not_le, UInt32.le_def, UInt32.lt_def, BitVec.le_def, BitVec.lt_def,
    char_val_lits.1, char_val_lits.2.1, char_val_lits.2.2.1, char_val_lits.2.2.2.1,
    char_val_lits.2.2.2.2.1, char_val_lits.2.2.2.2.2] at h ⊢
  omega

lemma isDigit_not_alpha (c : Char) (h : c.isDigit = true) : c.isAlpha = false := by
  simp only [Char.isDigit, Char.isAlpha, Char.isUpper, Char.isLower, Bool.or_eq_false_iff,
    Bool.and_eq_true, decide_eq_true_eq, Bool.and_eq_false_iff, decide_eq_false_iff_not,
    not_le, UInt32.le_def, UInt32.lt_def, BitVec.le_def, BitVec.lt_def,
    char_val_lits.1, char_val_lits.2.1, char_val_lits.2.2.1, char_val_lits.2.2.2.1,
    char_val_lits.2.2.2.2.1, char_val_lits.2.2.2.2.2] at h ⊢
  omega

lemma isAlpha_ne_dot (c : Char) (h : c.isAlpha = true) : ¬c = '.' := by
  intro hc
  rw [hc] at h
  revert h
  decide

lemma mem_of_head?_eq (l : List Char) (c : Char) (h : l.head? = some c) : c ∈ l := by
  cases l with
  | nil => cases h
  | cons a t =>
    simp only [List.head?_cons, Option.some.injEq] at h
    rw [← h]
    exact List.mem_cons_self a t

lemma takeWhile_append_of (p : Char → Bool) (l r : List Char)
    (hl : ∀ c ∈ l, p c = true) (hr : ∀ c, r.head? = some c → p c = false) :
    (l ++ r).takeWhile p = l := by
  induction l with
  | nil =>
    cases r with
    | nil => rfl
    | cons a t =>
      rw [List.nil_append, List.takeWhile_cons_of_neg (by simp [hr a rfl])]
  | cons a t ih =>
    rw [List.cons_append,
      List.takeWhile_cons_of_pos (hl a (List.mem_cons_self a t)),
      ih (fun c hc => hl c (List.mem_cons_of_mem a hc))]

lemma dropWhile_head_false (p : Char → Bool) (l : List Char)
    (h : ∀ c, l.head? = some c → p c = false) : l.dropWhile p = l := by
  cases l with
  | nil => rfl
  | cons a t => rw [List.dropWhile_cons_of_neg (by simp [h a rfl])]

lemma dropWhile_append_of (p : Char → Bool) (l r : List Char)
    (hl : ∀ c ∈ l, p c = true) (hr : ∀ c, r.head? = some c → p c = false) :
    (l ++ r).dropWhile p = r := by
  induction l with
  | nil => rw [List.nil_append, dropWhile_head_false p r hr]
  | cons a t ih =>
    rw [List.cons_append,
      List.dropWhile_cons_of_pos (hl a (List.mem_cons_self a t)),
      ih (fun c hc => hl c (List.mem_cons_of_mem a hc))]

lemma dropWhile_append_stop (p : Char → Bool) (A B : List Char)
    (hB : ∀ c, B.head? = some c → p c = false) :
    (A ++ B).dropWhile p = A.dropWhile p ++ B := by
  induction A with
  | nil => rw [List.nil_append, List.dropWhile_nil, List.nil_append,
      dropWhile_head_false p B hB]
  | cons a t ih =>
    by_cases h : p a = true
    · rw [List.cons_append, List.dropWhile_cons_of_pos h, List.dropWhile_cons_of_pos h, ih]
    · rw [List.cons_append, List.dropWhile_cons_of_neg (by simp [h]),
        List.dropWhile_cons_of_neg (by simp [h]), List.cons_append]

lemma dropWhile_decomp (p : Char → Bool) (l : List Char) :
    ∃ t, l = t ++ l.dropWhile p := by
  induction l with
  | nil => exact ⟨[], rfl⟩
  | cons a s ih =>
    by_cases h : p a = true
    · obtain ⟨t, ht⟩ := ih
      refine ⟨a :: t, ?_⟩
      rw [List.dropWhile_cons_of_pos h, List.cons_append, ← ht]
    · exact ⟨[], by rw [List.dropWhile_cons_of_neg (by simp [h]), List.nil_append]⟩

lemma rstrip_append (x rest : List Char)
    (hx : ∀ c, x.reverse.head? = some c → py_isspace c = false) :
    rstrip (x ++ rest) = x ++ rstrip rest := by
  unfold rstrip
  rw [List.reverse_append, dropWhile_append_stop py_isspace rest.reverse x.reverse hx,
    List.reverse_append, List.reverse_reverse]

lemma rstrip_head (l : List Char) (c : Char) (h : (rstrip l).head? = some c) :
    l.head? = some c := by
  obtain ⟨t, ht⟩ := dropWhile_decomp py_isspace l.reverse
  have hl : l = rstrip l ++ t.reverse := by
    have h2 := congrArg List.reverse ht
    rw [List.reverse_reverse, List.reverse_append] at h2
    exact h2
  rw [hl]
  cases hrs : rstrip l with
  | nil => rw [hrs] at h; cases h
  | cons a s =>
    rw [hrs] at h
    rw [List.cons_append, List.head?_cons]
    rw [List.head?_cons] at h
    exact h

/-- The value of the number group with no fractional part is just the
integer value of its digits. -/
lemma ratOfDecimal_nil (d : List Char) : ratOfDecimal d [] = (natOfDigits d : ℚ) := by
  simp [ratOfDecimal, natOfDigits]

/-- A well-shaped prefix `<digits><letters><digits>` followed by any
remainder that does not start with a digit parses into its three groups,
with the remainder ignored. -/
lemma parseDesignation_shape (num ls gr rest : List Char)
    (hnum_ne : num ≠ []) (hnum : ∀ c ∈ num, c.isDigit = true)
    (hls_ne : ls ≠ []) (hls : ∀ c ∈ ls, c.isAlpha = true)
    (hgr_ne : gr ≠ []) (hgr : ∀ c ∈ gr, c.isDigit = true)
    (hrest : ∀ c, rest.head? = some c → c.isDigit = false) :
    parseDesignation (num ++ ls ++ gr ++ rest) =
      some ((natOfDigits num : ℚ), ls, natOfDigits gr) := by
  obtain ⟨a, num', rfl⟩ := List.exists_cons_of_ne_nil hnum_ne
  obtain ⟨b, ls', rfl⟩ := List.exists_cons_of_ne_nil hls_ne
  obtain ⟨g, gr', rfl⟩ := List.exists_cons_of_ne_nil hgr_ne
  have hrest2 : ∀ c, (rstrip rest).head? = some c → c.isDigit = false :=
    fun c hc => hrest c (rstrip_head rest c hc)
  have hstrip : pyStrip ((a :: num') ++ (b :: ls') ++ (g :: gr') ++ rest)
      = (a :: num') ++ (b :: ls') ++ (g :: gr') ++ rstrip rest := by
    unfold pyStrip
    have h1 : ((a :: num') ++ (b :: ls') ++ (g :: gr') ++ rest).dropWhile py_isspace
        = (a :: num') ++ (b :: ls') ++ (g :: gr') ++ rest := by
      apply dropWhile_head_false
      intro c hc
      simp only [List.cons_append, List.head?_cons, Option.some.injEq] at hc
      rw [← hc]
      exact isDigit_not_space a (hnum a (List.mem_cons_self a num'))
    rw [h1]
    apply rstrip_append
    intro c hc
    have hm := mem_of_head?_eq _ c hc
    rw [List.mem_reverse] at hm
    simp only [List.mem_append, List.mem_cons] at hm
    rcases hm with (hm | hm) | hm
    · exact isDigit_not_space c (hnum c (by simp [List.mem_cons, hm]))
    · exact isAlpha_not_space c (hls c (by simp [List.mem_cons, hm]))
    · exact isDigit_not_space c (hgr c (by simp [List.mem_cons, hm]))
  have e1 : (a :: num') ++ (b :: ls') ++ (g :: gr') ++ rstrip rest
      = (a :: num') ++ ((b :: ls') ++ ((g :: gr') ++ rstrip rest)) := by
    simp only [List.append_assoc]
  have hRhead : ∀ c, ((b :: ls') ++ ((g :: gr') ++ rstrip rest)).head? = some c →
      Char.isDigit c = false := by
    intro c hc
    rw [List.cons_append, List.head?_cons] at hc
    rw [← Option.some.inj hc]
    exact isAlpha_not_digit b (hls b (List.mem_cons_self b ls'))
  have hR2head : ∀ c, ((g :: gr') ++ rstrip rest).head? = some c →
      Char.isAlpha c = false := by
    intro c hc
    rw [List.cons_append, List.head?_cons] at hc
    rw [← Option.some.inj hc]
    exact isDigit_not_alpha g (hgr g (List.mem_cons_self g gr'))
  have htake1 : ((a :: num') ++ (b :: ls') ++ (g :: gr') ++ rstrip rest).takeWhile
      Char.isDigit = a :: num' := by
    rw [e1]
    exact takeWhile_append_of Char.isDigit _ _ hnum hRhead
  have hdrop1 : ((a :: num') ++ (b :: ls') ++ (g :: gr') ++ rstrip rest).dropWhile
      Char.isDigit = (b :: ls') ++ ((g :: gr') ++ rstrip rest) := by
    rw [e1]
    exact dropWhile_append_of Char.isDigit _ _ hnum hRhead
  have hfrac : ¬(((b :: ls') ++ ((g :: gr') ++ rstrip rest)).head? = some '.') := by
    rw [List.cons_append, List.head?_cons]
    intro hc
    exact isAlpha_ne_dot b (hls b (List.mem_cons_self b ls')) (Option.some.inj hc)
  have hfrac1 : (fracSplit ((b :: ls') ++ ((g :: gr') ++ rstrip rest))).1 = [] := by
    unfold fracSplit
    rw [if_neg hfrac]
  have hfrac2 : (fracSplit ((b :: ls') ++ ((g :: gr') ++ rstrip rest))).2
      = (b :: ls') ++ ((g :: gr') ++ rstrip rest) := by
    unfold fracSplit
    rw [if_neg hfrac]
  have hspace1 : ((b :: ls') ++ ((g :: gr') ++ rstrip rest)).dropWhile py_isspace
      = (b :: ls') ++ ((g :: gr') ++ rstrip rest) := by
    apply dropWhile_head_false
    intro c hc
    rw [List.cons_append, List.head?_cons] at hc
    rw [← Option.some.inj hc]
    exact isAlpha_not_space b (hls b (List.mem_cons_self b ls'))
  have htake2 : ((b :: ls') ++ ((g :: gr') ++ rstrip rest)).takeWhile Char.isAlpha
      = b :: ls' := takeWhile_append_of Char.isAlpha _ _ hls hR2head
  have hdrop2 : ((b :: ls') ++ ((g :: gr') ++ rstrip rest)).dropWhile Char.isAlpha
      = (g :: gr') ++ rstrip rest := dropWhile_append_of Char.isAlpha _ _ hls hR2head
  have hspace2 : ((g :: gr') ++ rstrip rest).dropWhile py_isspace
      = (g :: gr') ++ rstrip rest := by
    apply dropWhile_head_false
    intro c hc
    rw [List.cons_append, List.head?_cons] at hc
    rw [← Option.some.inj hc]
    exact isDigit_not_space g (hgr g (List.mem_cons_self g gr'))
  have htake3 : ((g :: gr') ++ rstrip rest).takeWhile Char.isDigit = g :: gr' :=
    takeWhile_append_of Char.isDigit _ _ hgr hrest2
  simp only [parseDesignation]
  rw [hstrip, htake1, hdrop1]
  rw [show (a :: num').isEmpty = false from rfl, if_neg Bool.false_ne_true]
  rw [hfrac1, hfrac2, hspace1, htake2, hdrop2]
  rw [show (b :: ls').isEmpty = false from rfl, if_neg Bool.false_ne_true]
  rw [hspace2, htake3]
  rw [show (g :: gr').isEmpty = false from rfl, if_neg Bool.false_ne_true]
  rw [ratOfDecimal_nil]

/-- Counterexample to claim C8: the input "25H7xyz" is not of the shape
`<number><letters><integer>` (it has trailing garbage), yet the parser
accepts it, because `re.match` only anchors at the start; the strict shape
check (modelled from the spec) rejects it. -/
theorem C8_counterexample_trailing_garbage :
    parseDesignation ['2', '5', 'H', '7', 'x', 'y', 'z'] = some (25, ['H'], 7) ∧
    specShape ['2', '5', 'H', '7', 'x', 'y', 'z'] = false := by
  constructor
  · have h := parseDesignation_shape ['2', '5'] ['H'] ['7'] ['x', 'y', 'z']
      (by decide) (by decide) (by decide) (by decide) (by decide) (by decide)
      (by
        intro c hc
        rw [show (['x', 'y', 'z'] : List Char).head? = some 'x' from rfl] at hc
        rw [← Option.some.inj hc]
        decide)
    rw [show (['2', '5'] : List Char) ++ ['H'] ++ ['7'] ++ ['x', 'y', 'z']
        = ['2', '5', 'H', '7', 'x', 'y', 'z'] from rfl] at h
    rw [h]
    norm_num [natOfDigits, show '2'.toNat - 48 = 2 from rfl,
      show '5'.toNat - 48 = 5 from rfl, show '7'.toNat - 48 = 7 from rfl]
  · decide

/-- Claim C8 as amended: the parser rejects "abcXY", and it accepts every
string that starts (after stripping) with digits, then letters, then digits,
splitting them into the numeric size, the case-preserved letter code and the
integer grade — but it does not anchor at the end: any trailing remainder
that does not begin with a digit is silently ignored rather than rejected. -/
theorem C8_amended_prefix_parse :
    parseDesignation ['a', 'b', 'c', 'X', 'Y'] = none ∧
    (∀ num ls gr rest : List Char,
      num ≠ [] → (∀ c ∈ num, c.isDigit = true) →
      ls ≠ [] → (∀ c ∈ ls, c.isAlpha = true) →
      gr ≠ [] → (∀ c ∈ gr, c.isDigit = true) →
      (∀ c, rest.head? = some c → c.isDigit = false) →
      parseDesignation (num ++ ls ++ gr ++ rest) =
        some ((natOfDigits num : ℚ), ls, natOfDigits gr)) := by
  constructor
  · decide
  · exact parseDesignation_shape

/-- Witness for the amended C8 at the well-formed input "15H7". -/
theorem C8_amended_prefix_parse_witness :
    parseDesignation (['1', '5'] ++ ['H'] ++ ['7'] ++ []) =
      some ((natOfDigits ['1', '5'] : ℚ), ['H'], natOfDigits ['7']) :=
  C8_amended_prefix_parse.2 ['1', '5'] ['H'] ['7'] []
    (by decide) (by decide) (by decide) (by decide) (by decide) (by decide)
    (by intro c hc; simp at hc)

end App
